import Mathlib

/-
Verification of the esphome-core sensor filter chain
(src/esphome/sensor/filter.h).

The repository ships the declaration-only header `filter.h`; the member
function bodies (filter.cpp and the averaging helpers from helpers.h) are
not part of the available sources, so every behavioural definition below
is modelled from the specification's description of the corresponding
member function, while structure layouts and in-class member initializers
(e.g. `float last_value_{NAN}`, `uint32_t last_input_{0}`,
`bool has_value_{false}`) are taken from the header itself.

Floating point values are modelled exactly: a `float` is either NaN or an
exact rational number.  All numeric examples in the specification
(10, 12, 20, means of small integers, alpha = 1/2) are exactly
representable in binary floating point, so no rounding is modelled.
IEEE comparison semantics are kept: every ordered comparison involving
NaN is false, and NaN is not equal to itself.
-/

namespace EsphomeSensor

/-- Exact model of a C `float` value: NaN, or a finite value modelled as an
exact rational (rounding is not modelled; infinities behave like NaN for
the comparisons used by the filters and do not occur in any claim). -/
inductive F where
  | nan : F
  | fin : ℚ → F
deriving DecidableEq

/-- Model of `std::isnan`. -/
def F.isNaN : F → Bool
  | .nan => true
  | .fin _ => false

/-- Float subtraction; any operation involving NaN produces NaN. -/
def F.sub : F → F → F
  | .fin a, .fin b => .fin (a - b)
  | _, _ => .nan

/-- Float absolute value (`fabsf`); NaN propagates. -/
def F.abs : F → F
  | .fin a => .fin |a|
  | .nan => .nan

/-- IEEE ordered comparison `a <= b`: false whenever either side is NaN. -/
def F.le : F → F → Bool
  | .fin a, .fin b => decide (a ≤ b)
  | _, _ => false

/-- IEEE equality `a == b`: false whenever either side is NaN
(NaN compares unequal even to itself). -/
def F.beq : F → F → Bool
  | .fin a, .fin b => decide (a = b)
  | _, _ => false

/-- Generic chain driver over one stage: feed a list of inputs through a
stateful step function, collecting for every input the stage's optional
output (`none` meaning the value was suppressed).  Models repeatedly
calling `Filter::input` on one stage and observing what it forwards. -/
def runFilter {σ α β : Type} (step : σ → α → Option β × σ) :
    σ → List α → List (Option β) × σ
  | s, [] => ([], s)
  | s, v :: vs =>
    let r := step s v
    let rest := runFilter step r.2 vs
    (r.1 :: rest.1, rest.2)

/-- State of `DeltaFilter` exactly as declared in the header
(filter.h lines 250-262): threshold `min_delta_`, the `inverted_` flag
(set by the protected constructor, `true` for `MaxDeltaFilter`), and the
baseline `last_value_`, whose in-class initializer is `NAN`. -/
structure DeltaFilter where
  min_delta : F
  inverted : Bool
  last_value : F
deriving DecidableEq

/-- Freshly constructed `DeltaFilter`: `last_value_{NAN}` per the header. -/
def DeltaFilter.init (min_delta : F) (inverted : Bool) : DeltaFilter :=
  ⟨min_delta, inverted, .nan⟩

/-- Freshly constructed `MaxDeltaFilter` (filter.h lines 264-267): just a
`DeltaFilter` constructed with the `inverted` member set to true. -/
def MaxDeltaFilter.init (max_delta : F) : DeltaFilter :=
  DeltaFilter.init max_delta true

/-- Modelled from the spec: `DeltaFilter::new_value` (the body lives in the
unavailable filter.cpp).  Spec 4.9: the baseline is initially
undefined/NaN, so the very first input is accepted unconditionally and
becomes the baseline; afterwards, with d = |input - last_accepted|, the
non-inverted variant propagates exactly when d >= delta and the inverted
variant exactly when d <= delta; a propagated value becomes the new
baseline and a suppressed value leaves the baseline unchanged.  The
undefined-baseline test is `isnan(last_value_)`, per the header's `NAN`
initializer. -/
def DeltaFilter.new_value (f : DeltaFilter) (value : F) :
    Option F × DeltaFilter :=
  if f.last_value.isNaN then
    (some value, { f with last_value := value })
  else
    let d := (value.sub f.last_value).abs
    let pass := if f.inverted then d.le f.min_delta else f.min_delta.le d
    if pass then (some value, { f with last_value := value })
    else (none, f)

/-- Modelled from the spec: the `SlidingWindowMovingAverage` accumulator
(declared in the unavailable helpers.h; filter.h line 86 stores one as
`average_`).  Spec 3 and 4.2: an ordered bounded buffer of the last
`window_size` samples, oldest dropped once full.  Sample values are exact
rationals (see the float model note above). -/
structure SlidingWindowMovingAverage where
  window_size : ℕ
  queue : List ℚ
deriving DecidableEq

/-- Modelled from the spec: feeding one sample into the bounded buffer;
the oldest sample is dropped once the buffer holds `window_size` values. -/
def SlidingWindowMovingAverage.next_value (a : SlidingWindowMovingAverage)
    (v : ℚ) : SlidingWindowMovingAverage :=
  if a.queue.length < a.window_size then { a with queue := a.queue ++ [v] }
  else { a with queue := a.queue.tail ++ [v] }

/-- Modelled from the spec: the arithmetic mean of the buffered samples.
The buffer is nonempty whenever the filters below query it (spec 7: the
denominator is always >= 1 by construction). -/
def SlidingWindowMovingAverage.calculate_average
    (a : SlidingWindowMovingAverage) : ℚ :=
  a.queue.sum / (a.queue.length : ℚ)

/-- State of `SlidingWindowMovingAverageFilter` (filter.h lines 64-89):
the accumulator `average_`, the emission step `send_every_`, and the
emission bookkeeping, modelled per spec 3 and 4.2 as a call counter that
increments on every input plus an integer next-emission `target` that
starts at `send_first_at` and advances by `send_every` after each
emission. -/
structure SlidingWindowMovingAverageFilter where
  average : SlidingWindowMovingAverage
  send_every : ℕ
  counter : ℕ
  target : ℕ
deriving DecidableEq

/-- Freshly constructed `SlidingWindowMovingAverageFilter(window_size,
send_every, send_first_at)`: empty buffer, counter at zero, first
emission target `send_first_at` (header default 1). -/
def SlidingWindowMovingAverageFilter.init
    (window_size send_every send_first_at : ℕ) :
    SlidingWindowMovingAverageFilter :=
  ⟨⟨window_size, []⟩, send_every, 0, send_first_at⟩

/-- Modelled from the spec: `SlidingWindowMovingAverageFilter::new_value`
(the body lives in the unavailable filter.cpp).  Spec 4.2: every input
updates the bounded buffer and the call counter; when the counter reaches
the current emission target the current mean is emitted and the target
advances by `send_every`; otherwise nothing is emitted. -/
def SlidingWindowMovingAverageFilter.new_value
    (f : SlidingWindowMovingAverageFilter) (v : ℚ) :
    Option ℚ × SlidingWindowMovingAverageFilter :=
  let a' := f.average.next_value v
  let c' := f.counter + 1
  if c' = f.target then
    (some a'.calculate_average,
      { f with average := a', counter := c',
               target := f.target + f.send_every })
  else
    (none, { f with average := a', counter := c' })

/-- Modelled from the spec: the `ExponentialMovingAverage` accumulator
(declared in the unavailable helpers.h; filter.h line 110 stores one as
`average_`).  Spec 3 and 4.3: a single running weighted value plus a
decay factor, the running value initialized to the first input received
(`none` models the not-yet-initialized state). -/
structure ExponentialMovingAverage where
  alpha : ℚ
  average : Option ℚ
deriving DecidableEq

/-- Modelled from the spec: one exponential-decay update,
`avg = alpha * input + (1 - alpha) * avg`, with the running value
initialized to the first input received. -/
def ExponentialMovingAverage.next_value (a : ExponentialMovingAverage)
    (v : ℚ) : ExponentialMovingAverage :=
  match a.average with
  | none => { a with average := some v }
  | some avg => { a with average := some (a.alpha * v + (1 - a.alpha) * avg) }

/-- Modelled from the spec: the current running average.  The filters
below only query it after at least one input (the `getD 0` default is
never reached in any run below). -/
def ExponentialMovingAverage.calculate_average
    (a : ExponentialMovingAverage) : ℚ :=
  a.average.getD 0

/-- State of `ExponentialMovingAverageFilter` (filter.h lines 96-113):
the accumulator `average_` plus the same every-N-inputs emission
bookkeeping as the sliding-window filter, without a distinct
first-emission parameter (spec 4.3), so the first target equals
`send_every`. -/
structure ExponentialMovingAverageFilter where
  average : ExponentialMovingAverage
  send_every : ℕ
  counter : ℕ
  target : ℕ
deriving DecidableEq

/-- Freshly constructed `ExponentialMovingAverageFilter(alpha,
send_every)`: uninitialized running value, counter at zero, first
emission target `send_every`. -/
def ExponentialMovingAverageFilter.init (alpha : ℚ) (send_every : ℕ) :
    ExponentialMovingAverageFilter :=
  ⟨⟨alpha, none⟩, send_every, 0, send_every⟩

/-- Modelled from the spec: `ExponentialMovingAverageFilter::new_value`
(the body lives in the unavailable filter.cpp).  Spec 4.3: every input
updates the running value; emission follows the same every-N-inputs
policy as the sliding-window filter. -/
def ExponentialMovingAverageFilter.new_value
    (f : ExponentialMovingAverageFilter) (v : ℚ) :
    Option ℚ × ExponentialMovingAverageFilter :=
  let a' := f.average.next_value v
  let c' := f.counter + 1
  if c' = f.target then
    (some a'.calculate_average,
      { f with average := a', counter := c',
               target := f.target + f.send_every })
  else
    (none, { f with average := a', counter := c' })

/-- Wrap-around `uint32_t` subtraction `a - b`, as performed by the C++
expression `now - last_input_` on `uint32_t` millisecond timestamps. -/
def sub32 (a b : ℕ) : ℕ :=
  (a % 2 ^ 32 + 2 ^ 32 - b % 2 ^ 32) % 2 ^ 32

/-- State of `ThrottleFilter` (filter.h lines 170-179): the configured
minimum period `min_time_between_inputs_` and the `uint32_t` timestamp of
the last accepted input, whose in-class initializer is `0`. -/
structure ThrottleFilter where
  min_time_between_inputs : ℕ
  last_input : ℕ
deriving DecidableEq

/-- Freshly constructed `ThrottleFilter(min_time_between_inputs)`:
`last_input_{0}` per the header. -/
def ThrottleFilter.init (min_time_between_inputs : ℕ) : ThrottleFilter :=
  ⟨min_time_between_inputs, 0⟩

/-- Modelled from the spec: `ThrottleFilter::new_value` (the body lives
in the unavailable filter.cpp).  Spec 4.6: if the current monotonic
millisecond clock minus the recorded timestamp of the last accepted
input is less than the minimum period, suppress and leave the timestamp
unchanged; otherwise propagate the value unchanged and record the
current time.  The clock value `now` is the `uint32_t` result of
`millis()`, passed explicitly here. -/
def ThrottleFilter.new_value (f : ThrottleFilter) (now : ℕ) (value : F) :
    Option F × ThrottleFilter :=
  if sub32 now f.last_input < f.min_time_between_inputs then
    (none, f)
  else
    (some value, { f with last_input := now % 2 ^ 32 })

/-- State of `HeartbeatFilter` (filter.h lines 193-209): the period
`time_period_`, the most recently seen input `last_input_` (no in-class
initializer in the header, so `init` below takes its indeterminate
initial content as an argument), and `has_value_`, whose in-class
initializer is `false`. -/
structure HeartbeatFilter where
  time_period : ℕ
  last_input : F
  has_value : Bool
deriving DecidableEq

/-- Freshly constructed `HeartbeatFilter(time_period)`:
`has_value_{false}`; `junk` is the indeterminate initial content of the
uninitialized `last_input_` member. -/
def HeartbeatFilter.init (time_period : ℕ) (junk : F) : HeartbeatFilter :=
  ⟨time_period, junk, false⟩

/-- Modelled from the spec: `HeartbeatFilter::new_value` (the body lives
in the unavailable filter.cpp).  Spec 4.8: remember the most recently
seen input value without propagating it synchronously (emission is
time-driven, performed by the periodic tick). -/
def HeartbeatFilter.new_value (f : HeartbeatFilter) (value : F) :
    Option F × HeartbeatFilter :=
  (none, { f with last_input := value, has_value := true })

/-- Modelled from the spec: the periodic callback that `HeartbeatFilter`
registers with the scheduler in its `setup` (the body lives in the
unavailable filter.cpp).  Spec 4.8: on each tick, emit the last
remembered value even if no new input arrived, and emit nothing if no
input has ever been seen. -/
def HeartbeatFilter.tick (f : HeartbeatFilter) : Option F :=
  if f.has_value then some f.last_input else none

/-- An event delivered to a `HeartbeatFilter`: either a new input value
arriving through the chain, or the periodic scheduler tick firing. -/
inductive HBEvent where
  | input : F → HBEvent
  | tick : HBEvent
deriving DecidableEq

/-- Drive a `HeartbeatFilter` through a sequence of events, collecting
the optional emission produced at each event (inputs emit nothing
synchronously; ticks emit per `HeartbeatFilter.tick`). -/
def HeartbeatFilter.runEvents (f : HeartbeatFilter) :
    List HBEvent → List (Option F) × HeartbeatFilter
  | [] => ([], f)
  | .input v :: es =>
    let r := f.new_value v
    let rest := r.2.runEvents es
    (r.1 :: rest.1, rest.2)
  | .tick :: es =>
    let rest := f.runEvents es
    (f.tick :: rest.1, rest.2)

/-- Specification-side description of the heartbeat trace: walking the
event list while carrying the most recently seen input value (`none`
before any input), an input event emits nothing and a tick event emits
the carried value. -/
def hbTraceSpec (cur : Option F) : List HBEvent → List (Option F)
  | [] => []
  | .input v :: es => none :: hbTraceSpec (some v) es
  | .tick :: es => cur :: hbTraceSpec cur es

/-- Wiring state of the abstract `Filter` base class (filter.h lines
55-56): a non-owning reference to the next stage (absent at the tail)
and to the owning sensor, modelled per the spec's design notes as plain
identifiers. -/
structure Wiring where
  next : Option ℕ
  parent : Option ℕ
deriving DecidableEq

/-- A filter stage: its base-class wiring plus its stage-specific
internal state (instantiate `σ` with `DeltaFilter`,
`SlidingWindowMovingAverageFilter`, `ThrottleFilter`, ...). -/
structure Stage (σ : Type) where
  wiring : Wiring
  state : σ

/-- Modelled from the spec: `Filter::initialize(parent, next)` (the body
lives in the unavailable filter.cpp).  Spec 4.1: wires the stage into
the chain by re-establishing the parent/next links; safe to call more
than once; touches nothing but the two links. -/
def Stage.rewire {σ : Type} (s : Stage σ) (parent next : Option ℕ) :
    Stage σ :=
  { s with wiring := ⟨next, parent⟩ }

/-- A sub-chain of the OR-combinator: the orderly composition of its
stages' per-input behaviour, each stage mapping an input to an optional
transformed output (`none` meaning the stage suppressed the value). -/
def Chain : Type := List (F → Option F)

/-- Run one input through a sub-chain stage by stage; the result is the
value that reaches the sub-chain's end (the combinator's join node), or
`none` if some stage suppressed it. -/
def runChain : Chain → F → Option F
  | [], v => some v
  | s :: rest, v =>
    match s v with
    | none => none
    | some w => runChain rest w

/-- Modelled from the spec: `RangeFilter::new_value` (filter.h lines
303-311; the body lives in the unavailable filter.cpp).  Spec 4.4:
propagate the input unchanged exactly when `min <= input <= max`
(boundaries inclusive), otherwise suppress. -/
def RangeFilter.new_value (min max : F) (value : F) : Option F :=
  if min.le value && value.le max then some value else none

/-- Modelled from the spec: `FilterOutValueFilter::new_value` (filter.h
lines 160-168; the body lives in the unavailable filter.cpp).  Spec 4.5:
suppress when the input compares equal to the configured sentinel value,
otherwise propagate unchanged. -/
def FilterOutValueFilter.new_value (value_to_filter_out : F) (value : F) :
    Option F :=
  if value.beq value_to_filter_out then none else some value

/-- Modelled from the spec: `OrFilter::new_value` together with its
`PhiNode` join nodes (filter.h lines 269-291; the bodies live in the
unavailable filter.cpp).  Spec 4.10: the same input value is fed to
every sub-chain in sequence order; a sub-chain passes when its chain
reaches the join node; the combinator propagates its own original input
exactly when at least one sub-chain passed, discarding any transformed
values, and suppresses otherwise. -/
def OrFilter.new_value (filters : List Chain) (value : F) : Option F :=
  if filters.any fun c => (runChain c value).isSome then some value
  else none

/-- The chain driver produces exactly one optional output per input. -/
theorem runFilter_length {σ α β : Type} (step : σ → α → Option β × σ) :
    ∀ (s : σ) (l : List α), (runFilter step s l).1.length = l.length := by
  intro s l
  induction l generalizing s with
  | nil => rfl
  | cons v vs ih => simp [runFilter, ih]

/-- The last `w` elements of a list, in order. -/
def takeLast (w : ℕ) (l : List ℚ) : List ℚ :=
  l.drop (l.length - w)

/-- Feeding one sample into a buffer that holds the last `w` samples of
`p` yields the buffer holding the last `w` samples of `p ++ [v]`. -/
theorem swma_next_value_takeLast (w : ℕ) (hw : 1 ≤ w) (p : List ℚ)
    (v : ℚ) :
    SlidingWindowMovingAverage.next_value ⟨w, takeLast w p⟩ v
      = ⟨w, takeLast w (p ++ [v])⟩ := by
  simp only [SlidingWindowMovingAverage.next_value, takeLast,
    List.length_drop, List.length_append, List.length_singleton]
  by_cases hlen : p.length < w
  · have h1 : p.length - w = 0 := by omega
    have h2 : p.length + 1 - w = 0 := by omega
    simp [h1, h2, if_pos hlen]
  · have hcond : ¬(p.length - (p.length - w) < w) := by omega
    rw [if_neg hcond]
    have htail : (p.drop (p.length - w)).tail = p.drop (p.length - w + 1) :=
      List.tail_drop p (p.length - w)
    have hidx : p.length - w + 1 = p.length + 1 - w := by omega
    have happ : (p ++ [v]).drop (p.length + 1 - w)
        = p.drop (p.length + 1 - w) ++ [v] :=
      List.drop_append_of_le_length (by omega)
    simp [htail, hidx, happ]

/-- Arithmetic core of the emission cadence: while the counter stands at
`m` and the current target is `f0 + n * e` (the least emission point
beyond `m`), the next input (the `m+1`-st) hits the target exactly when
`m+1` lies on the arithmetic progression `f0, f0+n, f0+2n, ...`. -/
theorem cadence_target_eq (n f0 m e : ℕ) (_hf : 1 ≤ f0) (hn : 1 ≤ n)
    (hlt : m < f0 + n * e) (hprev : e = 0 ∨ f0 + n * (e - 1) ≤ m) :
    (f0 ≤ m + 1 ∧ (m + 1 - f0) % n = 0) ↔ m + 1 = f0 + n * e := by
  constructor
  · rintro ⟨h1, h2⟩
    obtain ⟨k, hk⟩ := Nat.dvd_of_mod_eq_zero h2
    have hm1 : m + 1 = f0 + n * k := by omega
    have hkle : k ≤ e := by
      by_contra hgt
      push_neg at hgt
      have hstep : n * (e + 1) ≤ n * k := mul_le_mul_left' hgt n
      have hexp : n * (e + 1) = n * e + n := by ring
      omega
    have hek : e ≤ k := by
      rcases hprev with he0 | hple
      · omega
      · by_contra hgt
        push_neg at hgt
        have hstep : n * k ≤ n * (e - 1) :=
          mul_le_mul_left' (by omega) n
        omega
    have hke : k = e := le_antisymm hkle hek
    subst hke
    exact hm1
  · intro h
    refine ⟨by omega, ?_⟩
    have h2 : m + 1 - f0 = n * e := by omega
    rw [h2]
    exact Nat.mul_mod_right n e

/-- Invariant-carrying induction for the sliding-window filter's
emission cadence: starting with counter `m` and target `f0 + n * e`, the
`i`-th further input produces an emission exactly when the total input
count `m + i + 1` lies on the progression `f0, f0 + n, ...`. -/
theorem swf_cadence_aux (n f0 : ℕ) (hf : 1 ≤ f0) (hn : 1 ≤ n) :
    ∀ (inputs : List ℚ) (m e : ℕ) (a : SlidingWindowMovingAverage),
      m < f0 + n * e →
      (e = 0 ∨ f0 + n * (e - 1) ≤ m) →
      ∀ (i : ℕ), i < inputs.length →
        (((runFilter SlidingWindowMovingAverageFilter.new_value
            ⟨a, n, m, f0 + n * e⟩ inputs).1.getD i none).isSome = true
          ↔ (f0 ≤ m + i + 1 ∧ (m + i + 1 - f0) % n = 0)) := by
  intro inputs
  induction inputs with
  | nil =>
    intro m e a _ _ i hi
    simp at hi
  | cons v vs ih =>
    intro m e a hlt hprev i hi
    by_cases hemit : m + 1 = f0 + n * e
    · have hstep : SlidingWindowMovingAverageFilter.new_value
          ⟨a, n, m, f0 + n * e⟩ v
          = (some ((a.next_value v).calculate_average),
             ⟨a.next_value v, n, m + 1, (f0 + n * e) + n⟩) := by
        simp [SlidingWindowMovingAverageFilter.new_value, hemit]
      cases i with
      | zero =>
        simp only [runFilter, hstep, List.getD_cons_zero,
          Option.isSome_some]
        simpa using (cadence_target_eq n f0 m e hf hn hlt hprev).mpr hemit
      | succ j =>
        have htgt : (f0 + n * e) + n = f0 + n * (e + 1) := by ring
        have hexp : n * (e + 1) = n * e + n := by ring
        have hlt' : m + 1 < f0 + n * (e + 1) := by omega
        have hprev' : e + 1 = 0 ∨ f0 + n * ((e + 1) - 1) ≤ m + 1 := by
          right
          simp only [Nat.add_sub_cancel]
          omega
        have hrec := ih (m + 1) (e + 1) (a.next_value v) hlt' hprev' j
          (by simpa using hi)
        simp only [runFilter, hstep, List.getD_cons_succ]
        rw [htgt]
        rw [show m + (j + 1) + 1 = m + 1 + j + 1 by omega]
        exact hrec
    · have hstep : SlidingWindowMovingAverageFilter.new_value
          ⟨a, n, m, f0 + n * e⟩ v
          = (none, ⟨a.next_value v, n, m + 1, f0 + n * e⟩) := by
        simp [SlidingWindowMovingAverageFilter.new_value, hemit]
      cases i with
      | zero =>
        simp only [runFilter, hstep, List.getD_cons_zero,
          Option.isSome_none, Bool.false_eq_true, false_iff]
        intro hrhs
        exact hemit ((cadence_target_eq n f0 m e hf hn hlt hprev).mp
          (by simpa using hrhs))
      | succ j =>
        have hlt' : m + 1 < f0 + n * e := by omega
        have hprev' : e = 0 ∨ f0 + n * (e - 1) ≤ m + 1 := by
          rcases hprev with h | h
          · exact Or.inl h
          · exact Or.inr (by omega)
        have hrec := ih (m + 1) e (a.next_value v) hlt' hprev' j
          (by simpa using hi)
        simp only [runFilter, hstep, List.getD_cons_succ]
        rw [show m + (j + 1) + 1 = m + 1 + j + 1 by omega]
        exact hrec

/-- Invariant-carrying induction for the W=3, N=1, F=1 sliding-window
filter: having already consumed the samples `p`, each further input
makes the filter emit the mean of the last (at most) three samples seen
so far. -/
theorem swf_w3_run_mean (inputs : List ℚ) :
    ∀ (p : List ℚ) (i : ℕ), i < inputs.length →
      (runFilter SlidingWindowMovingAverageFilter.new_value
          ⟨⟨3, takeLast 3 p⟩, 1, p.length, p.length + 1⟩ inputs).1.getD
            i none
        = some (SlidingWindowMovingAverage.calculate_average
            ⟨3, takeLast 3 ((p ++ inputs).take (p.length + i + 1))⟩) := by
  induction inputs with
  | nil =>
    intro p i hi
    simp at hi
  | cons v vs ih =>
    intro p i hi
    have hstep : SlidingWindowMovingAverageFilter.new_value
        ⟨⟨3, takeLast 3 p⟩, 1, p.length, p.length + 1⟩ v
        = (some (SlidingWindowMovingAverage.calculate_average
            ⟨3, takeLast 3 (p ++ [v])⟩),
           ⟨⟨3, takeLast 3 (p ++ [v])⟩, 1, p.length + 1, p.length + 2⟩) := by
      simp [SlidingWindowMovingAverageFilter.new_value,
        swma_next_value_takeLast 3 (by norm_num) p v]
    cases i with
    | zero =>
      simp only [runFilter, hstep, List.getD_cons_zero]
      have htake : (p ++ v :: vs).take (p.length + 0 + 1) = p ++ [v] := by
        rw [show p ++ v :: vs = (p ++ [v]) ++ vs by simp]
        rw [show p.length + 0 + 1 = (p ++ [v]).length by simp]
        exact List.take_left _ _
      rw [htake]
    | succ j =>
      have hrec := ih (p ++ [v]) j (by simpa using hi)
      simp only [List.length_append, List.length_singleton,
        List.append_assoc, List.singleton_append] at hrec
      simp only [runFilter, hstep, List.getD_cons_succ]
      rw [show p.length + (j + 1) + 1 = p.length + 1 + j + 1 by omega]
      exact hrec

/-- Claim C1: the Delta Gate accepts its very first input unconditionally
and makes it the baseline; afterwards, with d = |input - last_accepted|,
the non-inverted variant propagates the input unchanged exactly when
d >= delta and the inverted variant (MaxDeltaFilter) exactly when
d <= delta; a propagated value becomes the new baseline and a suppressed
value never changes the state.  Concretely, inputs [10, 12, 20] with
delta = 5 emit [10, 20] non-inverted and [10, 12] inverted. -/
theorem delta_gate_correct :
    (∀ (d : F) (inv : Bool) (v : F),
        DeltaFilter.new_value (DeltaFilter.init d inv) v
          = (some v, ⟨d, inv, v⟩))
    ∧ (∀ (f : DeltaFilter) (v w : F),
        ((f.new_value v).1 = some w → w = v)
        ∧ ((f.new_value v).1 = none → (f.new_value v).2 = f)
        ∧ ((f.new_value v).1 ≠ none → (f.new_value v).2.last_value = v))
    ∧ (∀ (f : DeltaFilter) (v : F),
        f.last_value.isNaN = false → f.inverted = false →
          ((f.new_value v).1 = some v
            ↔ F.le f.min_delta ((v.sub f.last_value).abs) = true))
    ∧ (∀ (f : DeltaFilter) (v : F),
        f.last_value.isNaN = false → f.inverted = true →
          ((f.new_value v).1 = some v
            ↔ F.le ((v.sub f.last_value).abs) f.min_delta = true))
    ∧ (runFilter DeltaFilter.new_value (DeltaFilter.init (.fin 5) false)
        [.fin 10, .fin 12, .fin 20]).1
        = [some (.fin 10), none, some (.fin 20)]
    ∧ (runFilter DeltaFilter.new_value (MaxDeltaFilter.init (.fin 5))
        [.fin 10, .fin 12, .fin 20]).1
        = [some (.fin 10), some (.fin 12), none] := by
  refine ⟨?_, ?_, ?_, ?_, ?_, ?_⟩
  · intro d inv v
    rfl
  · intro f v w
    simp only [DeltaFilter.new_value]
    split_ifs <;> exact ⟨by simp_all, by simp_all, by simp_all⟩
  · intro f v hn hi
    simp only [DeltaFilter.new_value, hn, hi, Bool.false_eq_true,
      if_false]
    split
    · simp_all
    · simp_all
  · intro f v hn hi
    simp only [DeltaFilter.new_value, hn, hi, Bool.false_eq_true,
      if_false, if_true]
    split
    · simp_all
    · simp_all
  · norm_num [runFilter, DeltaFilter.new_value, DeltaFilter.init,
      F.isNaN, F.sub, F.abs, F.le]
  · norm_num [runFilter, DeltaFilter.new_value, DeltaFilter.init,
      MaxDeltaFilter.init, F.isNaN, F.sub, F.abs, F.le]

/-- Witness for claim C1 at a concrete state: baseline 10, threshold 5,
input 20, non-inverted: |20 - 10| >= 5, so the input is propagated. -/
theorem delta_gate_correct_witness :
    (DeltaFilter.new_value ⟨.fin 5, false, .fin 10⟩ (.fin 20)).1
      = some (.fin 20) := by
  have h := (delta_gate_correct.2.2.1 ⟨.fin 5, false, .fin 10⟩ (.fin 20)
    rfl rfl).mpr
  apply h
  norm_num [F.sub, F.abs, F.le]

/-- Claim C2, counterexample: the Delta Gate's undefined baseline is the
sentinel `NAN` stored in `last_value_` (filter.h line 261), not an
explicit representation.  Consequently a NaN first input leaves the
filter bit-for-bit in its freshly-constructed state (second conjunct),
and the following input 12 is accepted as if it were the first input
(first conjunct), whereas under the claim the baseline after the NaN
input would be NaN and the comparison |12 - NaN| >= 5 (false, by IEEE
NaN semantics) would suppress 12. -/
theorem delta_gate_nan_baseline_counterexample :
    (runFilter DeltaFilter.new_value (DeltaFilter.init (.fin 5) false)
        [F.nan, .fin 12]).1 = [some F.nan, some (.fin 12)]
    ∧ (DeltaFilter.new_value (DeltaFilter.init (.fin 5) false) F.nan).2
        = DeltaFilter.init (.fin 5) false := by
  constructor
  · rfl
  · rfl

/-- Claim C2, amended: the undefined baseline is represented by the
sentinel NaN initializer of `last_value_`, indistinguishable from a real
NaN reading.  Every first input is accepted and returned; a non-NaN
first input becomes the baseline; a NaN first input leaves the filter in
the undefined-baseline state, so no comparison is ever evaluated against
the baseline until a non-NaN input has been accepted. -/
theorem delta_gate_nan_baseline_amended :
    (∀ (d : F) (inv : Bool) (v : F),
        (DeltaFilter.new_value (DeltaFilter.init d inv) v).1 = some v)
    ∧ (∀ (d : F) (inv : Bool) (q : ℚ),
        (DeltaFilter.new_value (DeltaFilter.init d inv) (.fin q)).2
          = ⟨d, inv, .fin q⟩)
    ∧ (∀ (d : F) (inv : Bool),
        (DeltaFilter.new_value (DeltaFilter.init d inv) F.nan).2
          = DeltaFilter.init d inv) := by
  exact ⟨fun d inv v => rfl, fun d inv q => rfl, fun d inv => rfl⟩

/-- Claim C3: the OR-combinator feeds its input to every sub-chain and
propagates exactly its own original input value when at least one
sub-chain's chain reaches the join node, suppressing otherwise; values
transformed inside sub-chains are discarded.  Concretely, with
sub-chains Range[0,10] and Filter-Out-Value(5), input 5 propagates as 5
because the Range sub-chain passes. -/
theorem or_filter_pass_correct :
    (∀ (filters : List Chain) (v : F),
        (OrFilter.new_value filters v = some v
          ↔ ∃ c ∈ filters, (runChain c v).isSome = true)
      ∧ (OrFilter.new_value filters v = none
          ↔ ∀ c ∈ filters, runChain c v = none)
      ∧ ∀ w, OrFilter.new_value filters v = some w → w = v)
    ∧ OrFilter.new_value
        [[RangeFilter.new_value (.fin 0) (.fin 10)],
         [FilterOutValueFilter.new_value (.fin 5)]] (.fin 5)
        = some (.fin 5) := by
  constructor
  · intro filters v
    refine ⟨?_, ?_, ?_⟩
    · simp only [OrFilter.new_value]
      split
      · simp_all [List.any_eq_true]
      · simp_all [List.any_eq_true]
    · constructor
      · intro h c hc
        simp only [OrFilter.new_value] at h
        split at h
        · cases h
        · next hany =>
          simp only [List.any_eq_true, not_exists] at hany
          cases hrc : runChain c v with
          | none => rfl
          | some w => exact absurd ⟨hc, by simp [hrc]⟩ (hany c)
      · intro hall
        simp only [OrFilter.new_value]
        have hfalse : (filters.any fun c => (runChain c v).isSome)
            = false := by
          simp only [List.any_eq_false]
          intro c hc
          simp [hall c hc]
        simp [hfalse]
    · intro w hw
      simp only [OrFilter.new_value] at hw
      split at hw
      · exact (Option.some_inj.mp hw).symm
      · cases hw
  · norm_num [OrFilter.new_value, runChain, RangeFilter.new_value,
      FilterOutValueFilter.new_value, F.le, F.beq]

/-- Witness for claim C3 at a concrete instance: with the single
sub-chain Range[0,10], input 5 is propagated because the sub-chain
passes. -/
theorem or_filter_pass_correct_witness :
    OrFilter.new_value [[RangeFilter.new_value (.fin 0) (.fin 10)]]
      (.fin 5) = some (.fin 5) := by
  apply ((or_filter_pass_correct.1
    [[RangeFilter.new_value (.fin 0) (.fin 10)]] (.fin 5)).1).mpr
  refine ⟨[RangeFilter.new_value (.fin 0) (.fin 10)], by simp, ?_⟩
  norm_num [runChain, RangeFilter.new_value, F.le]

/-- Claim C7: re-wiring a stage (calling `Filter::initialize` again, with
the same or different parent/next references) re-establishes the links,
overwriting rather than accumulating the previous ones, and leaves the
stage's accumulated internal state exactly unchanged, for every stage
state type. -/
theorem rewire_preserves_state :
    ∀ (σ : Type) (s : Stage σ) (p n p' n' : Option ℕ),
      ((s.rewire p n).rewire p' n').state = s.state
      ∧ (s.rewire p n).rewire p' n' = s.rewire p' n'
      ∧ ((s.rewire p n).wiring = ⟨n, p⟩ ∧ (s.rewire p n).state = s.state) := by
  intro σ s p n p' n'
  exact ⟨rfl, rfl, rfl, rfl⟩

/-- States related to the specification-side carried value: `cur` is the
most recently seen input, `none` if the filter has never seen one. -/
theorem hb_runEvents_trace (es : List HBEvent) :
    ∀ (f : HeartbeatFilter) (cur : Option F),
      (f.has_value = true ∧ cur = some f.last_input
        ∨ f.has_value = false ∧ cur = none) →
      (f.runEvents es).1 = hbTraceSpec cur es := by
  induction es with
  | nil => intro f cur _; rfl
  | cons e es ih =>
    intro f cur h
    cases e with
    | input v =>
      show none :: ((f.new_value v).2.runEvents es).1
        = none :: hbTraceSpec (some v) es
      congr 1
      exact ih (f.new_value v).2 (some v) (Or.inl ⟨rfl, rfl⟩)
    | tick =>
      show f.tick :: (f.runEvents es).1 = cur :: hbTraceSpec cur es
      have htick : f.tick = cur := by
        rcases h with ⟨hv, hc⟩ | ⟨hv, hc⟩ <;>
          simp [HeartbeatFilter.tick, hv, hc]
      rw [htick]
      congr 1
      exact ih f cur h

/-- Claim C8: a scheduled heartbeat tick emits nothing before any input
has ever been seen; once at least one input has been seen, every tick
emits the most recently seen input value unchanged until a newer input
replaces it.  The trace of any interleaving of inputs and ticks matches
the specification-side description `hbTraceSpec`. -/
theorem heartbeat_correct :
    (∀ (T : ℕ) (junk : F), (HeartbeatFilter.init T junk).tick = none)
    ∧ (∀ (f : HeartbeatFilter) (v : F),
        (f.new_value v).1 = none
        ∧ (f.new_value v).2.last_input = v
        ∧ (f.new_value v).2.has_value = true)
    ∧ (∀ (f : HeartbeatFilter), f.has_value = true →
        f.tick = some f.last_input)
    ∧ (∀ (T : ℕ) (junk : F) (es : List HBEvent),
        ((HeartbeatFilter.init T junk).runEvents es).1
          = hbTraceSpec none es) := by
  refine ⟨fun T junk => rfl, fun f v => ⟨rfl, rfl, rfl⟩, ?_, ?_⟩
  · intro f hv
    simp [HeartbeatFilter.tick, hv]
  · intro T junk es
    exact hb_runEvents_trace es (HeartbeatFilter.init T junk) none
      (Or.inr ⟨rfl, rfl⟩)

/-- Witness for claim C8 at a concrete state: a heartbeat that has seen
the value 3 emits 3 on a tick. -/
theorem heartbeat_correct_witness :
    HeartbeatFilter.tick ⟨1000, .fin 3, true⟩ = some (.fin 3) :=
  heartbeat_correct.2.2.1 ⟨1000, .fin 3, true⟩ rfl

/-- Claim C9: on each input, the throttle suppresses (leaving its state
unchanged) exactly when the current clock minus the recorded timestamp
of the last accepted input is below the configured minimum period, and
otherwise propagates the value exactly unchanged while recording the
current time. -/
theorem throttle_correct :
    ∀ (f : ThrottleFilter) (now : ℕ) (v : F),
      (sub32 now f.last_input < f.min_time_between_inputs →
        f.new_value now v = (none, f))
      ∧ (f.min_time_between_inputs ≤ sub32 now f.last_input →
        f.new_value now v
          = (some v, ⟨f.min_time_between_inputs, now % 2 ^ 32⟩)) := by
  intro f now v
  constructor
  · intro h
    simp [ThrottleFilter.new_value, h]
  · intro h
    simp [ThrottleFilter.new_value, Nat.not_lt.mpr h]

/-- Witness for claim C9: with minimum period 10 and last acceptance at
time 0, an input at time 50 is propagated and the timestamp becomes
50. -/
theorem throttle_correct_witness :
    ThrottleFilter.new_value ⟨10, 0⟩ 50 (.fin 7)
      = (some (.fin 7), ⟨10, 50⟩) := by
  have h := (throttle_correct ⟨10, 0⟩ 50 (.fin 7)).2
  have hle : (10 : ℕ) ≤ sub32 50 0 := by decide
  simpa using h hle

/-- Claim C10: the throttle has no distinct never-accepted state — its
last-accepted timestamp starts at clock value 0 (the in-class
initializer of `last_input_`), so any first input arriving while the
monotonic clock still reads less than the minimum period is suppressed
even though nothing was ever accepted. -/
theorem throttle_first_input_suppressed :
    (∀ (T : ℕ), (ThrottleFilter.init T).last_input = 0)
    ∧ (∀ (T now : ℕ) (v : F), now < T → T ≤ 2 ^ 32 →
        ThrottleFilter.new_value (ThrottleFilter.init T) now v
          = (none, ThrottleFilter.init T)) := by
  constructor
  · intro T; rfl
  · intro T now v h1 h2
    have hnow : now % 2 ^ 32 = now := Nat.mod_eq_of_lt (by omega)
    have hsub : sub32 now 0 = now := by
      simp [sub32, hnow]
      omega
    simp [ThrottleFilter.new_value, ThrottleFilter.init, hsub, h1]

/-- Witness for claim C10: with minimum period 1000, a first input at
clock time 5 is suppressed. -/
theorem throttle_first_input_suppressed_witness :
    ThrottleFilter.new_value (ThrottleFilter.init 1000) 5 (.fin 1)
      = (none, ThrottleFilter.init 1000) :=
  throttle_first_input_suppressed.2 1000 5 (.fin 1) (by decide)
    (by norm_num)

/-- Claim C4: for the sliding-window moving average with window 3 and
step 1 (first emission at 1), feeding [1, 2, 3, 4] emits exactly
[1, 3/2, 2, 3]; in general, after each input the filter emits the
arithmetic mean of the last at most three samples seen so far, the
oldest being dropped once the buffer holds three. -/
theorem sliding_window_example_correct :
    (runFilter SlidingWindowMovingAverageFilter.new_value
        (SlidingWindowMovingAverageFilter.init 3 1 1) [1, 2, 3, 4]).1
      = [some 1, some (3 / 2), some 2, some 3]
    ∧ (∀ (inputs : List ℚ) (i : ℕ), i < inputs.length →
        (runFilter SlidingWindowMovingAverageFilter.new_value
            (SlidingWindowMovingAverageFilter.init 3 1 1) inputs).1.getD
              i none
          = some (SlidingWindowMovingAverage.calculate_average
              ⟨3, takeLast 3 (inputs.take (i + 1))⟩)) := by
  constructor
  · norm_num [runFilter, SlidingWindowMovingAverageFilter.new_value,
      SlidingWindowMovingAverageFilter.init,
      SlidingWindowMovingAverage.next_value,
      SlidingWindowMovingAverage.calculate_average]
  · intro inputs i hi
    have h := swf_w3_run_mean inputs [] i hi
    simpa using h

/-- Witness for claim C4: the second input of [1, 2, 3, 4] emits the
mean of the first two samples. -/
theorem sliding_window_example_correct_witness :
    (runFilter SlidingWindowMovingAverageFilter.new_value
        (SlidingWindowMovingAverageFilter.init 3 1 1) [1, 2, 3, 4]).1.getD
          1 none
      = some (SlidingWindowMovingAverage.calculate_average
          ⟨3, takeLast 3 ([1, 2, 3, 4].take 2)⟩) :=
  sliding_window_example_correct.2 [1, 2, 3, 4] 1 (by norm_num)

/-- Claim C5: the sliding-window filter's call counter increments on
every input, the filter emits exactly when the counter reaches the
current target, the target starts at the first-emission point and
advances by the step after each emission; consequently, with
1 ≤ F ≤ N, the inputs that emit are exactly the F-th, (F+N)-th,
(F+2N)-th, ...; in particular with N=3, F=1 the first input alone
emits and the next emission is on the 4th input, not the 3rd. -/
theorem sliding_window_cadence_correct :
    (∀ (f : SlidingWindowMovingAverageFilter) (v : ℚ),
        (((f.new_value v).1).isSome = true ↔ f.counter + 1 = f.target)
      ∧ (f.new_value v).2.counter = f.counter + 1
      ∧ (f.counter + 1 = f.target →
          (f.new_value v).2.target = f.target + f.send_every)
      ∧ (f.counter + 1 ≠ f.target → (f.new_value v).2.target = f.target))
    ∧ (∀ (w n f0 : ℕ),
        (SlidingWindowMovingAverageFilter.init w n f0).counter = 0
        ∧ (SlidingWindowMovingAverageFilter.init w n f0).target = f0)
    ∧ (∀ (w n f0 : ℕ), 1 ≤ f0 → f0 ≤ n →
        ∀ (inputs : List ℚ) (i : ℕ), i < inputs.length →
          (((runFilter SlidingWindowMovingAverageFilter.new_value
              (SlidingWindowMovingAverageFilter.init w n f0) inputs).1.getD
                i none).isSome = true
            ↔ (f0 ≤ i + 1 ∧ (i + 1 - f0) % n = 0)))
    ∧ (∀ (w : ℕ) (a b c d : ℚ),
        ((runFilter SlidingWindowMovingAverageFilter.new_value
            (SlidingWindowMovingAverageFilter.init w 3 1) [a, b, c, d]).1.map
              Option.isSome) = [true, false, false, true]) := by
  refine ⟨?_, ?_, ?_, ?_⟩
  · intro f v
    refine ⟨?_, ?_, ?_, ?_⟩
    · simp only [SlidingWindowMovingAverageFilter.new_value]
      split_ifs with h <;> simp [h]
    · simp only [SlidingWindowMovingAverageFilter.new_value]
      split_ifs with h <;> simp
    · intro h
      simp [SlidingWindowMovingAverageFilter.new_value, h]
    · intro h
      simp [SlidingWindowMovingAverageFilter.new_value, h]
  · intro w n f0
    exact ⟨rfl, rfl⟩
  · intro w n f0 hf hfn inputs i hi
    have h := swf_cadence_aux n f0 hf (le_trans hf hfn) inputs 0 0
      ⟨w, []⟩ (by simpa using hf) (Or.inl rfl) i hi
    simpa using h
  · intro w a b c d
    norm_num [runFilter, SlidingWindowMovingAverageFilter.new_value,
      SlidingWindowMovingAverageFilter.init]

/-- Witness for claim C5: with N=3, F=1 and inputs [1, 2, 3, 4], the 4th
input emits (index 3 on the progression 1, 4, 7, ...). -/
theorem sliding_window_cadence_correct_witness :
    ((runFilter SlidingWindowMovingAverageFilter.new_value
        (SlidingWindowMovingAverageFilter.init 3 3 1) [1, 2, 3, 4]).1.getD
          3 none).isSome = true := by
  have h := sliding_window_cadence_correct.2.2.1 3 3 1 (by norm_num)
    (by norm_num) [1, 2, 3, 4] 3 (by norm_num)
  exact h.mpr (by norm_num)

/-- Claim C6: the exponential moving average's running value is
initialized to the very first input received and every subsequent input
updates it by avg = alpha * input + (1 - alpha) * avg; emission follows
the same counter/target mechanism as the sliding-window filter, with
the first target equal to the step (no separate first-emission
parameter); in particular alpha = 1/2, N = 1 on inputs [10, 20] emits
[10, 15]. -/
theorem exponential_average_correct :
    (∀ (alpha : ℚ) (n : ℕ),
        (ExponentialMovingAverageFilter.init alpha n).average.average = none
        ∧ (ExponentialMovingAverageFilter.init alpha n).counter = 0
        ∧ (ExponentialMovingAverageFilter.init alpha n).target = n)
    ∧ (∀ (a : ExponentialMovingAverage) (v : ℚ), a.average = none →
        a.next_value v = ⟨a.alpha, some v⟩)
    ∧ (∀ (a : ExponentialMovingAverage) (avg v : ℚ), a.average = some avg →
        a.next_value v
          = ⟨a.alpha, some (a.alpha * v + (1 - a.alpha) * avg)⟩)
    ∧ (∀ (f : ExponentialMovingAverageFilter) (v : ℚ),
        (((f.new_value v).1).isSome = true ↔ f.counter + 1 = f.target)
      ∧ (f.new_value v).2.counter = f.counter + 1
      ∧ (f.counter + 1 = f.target →
          (f.new_value v).2.target = f.target + f.send_every))
    ∧ (runFilter ExponentialMovingAverageFilter.new_value
        (ExponentialMovingAverageFilter.init (1 / 2) 1) [10, 20]).1
        = [some 10, some 15] := by
  refine ⟨?_, ?_, ?_, ?_, ?_⟩
  · intro alpha n
    exact ⟨rfl, rfl, rfl⟩
  · intro a v h
    simp [ExponentialMovingAverage.next_value, h]
  · intro a avg v h
    simp [ExponentialMovingAverage.next_value, h]
  · intro f v
    refine ⟨?_, ?_, ?_⟩
    · simp only [ExponentialMovingAverageFilter.new_value]
      split_ifs with h <;> simp [h]
    · simp only [ExponentialMovingAverageFilter.new_value]
      split_ifs with h <;> simp
    · intro h
      simp [ExponentialMovingAverageFilter.new_value, h]
  · norm_num [runFilter, ExponentialMovingAverageFilter.new_value,
      ExponentialMovingAverageFilter.init,
      ExponentialMovingAverage.next_value,
      ExponentialMovingAverage.calculate_average]

/-- Witness for claim C6: a running average of 10 with alpha = 1/2
updated by the input 20 becomes 15. -/
theorem exponential_average_correct_witness :
    ExponentialMovingAverage.next_value ⟨1 / 2, some 10⟩ 20
      = ⟨1 / 2, some 15⟩ := by
  have h := exponential_average_correct.2.2.1 ⟨1 / 2, some 10⟩ 10 20 rfl
  norm_num at h
  exact h

end EsphomeSensor
